import Mathlib

/-!
Verification of the storage/sync core of the `toku` flashcard store.

The embedding below models the `CardStore` class (map functions for the
`cards` / `new_cards` / `overdueness` views, `_putNewCard`, card-id
generation, review-session and note conflict resolution, and the sync
callback wiring of `setSyncServer`) together with the `NoteStore` note
conflict resolver.

Modelling conventions:
* Storage keys are classified structurally: the string markers
  `card-` / `progress-` / `review-` that the source prepends to document
  keys are represented by the constructors of `Doc` / `DocKind`, and the
  bare id suffix is carried as a `String`.
* JavaScript numbers holding timestamps, levels and sequence counters are
  modelled as `ℚ` (or `ℕ` for sequence counters and millisecond clocks);
  the overdueness score, which uses `Math.exp`, is modelled in `ℝ` with
  JavaScript float arithmetic idealized as real arithmetic.
* The backing PouchDB collaborator is modelled at its contract: a put
  fails with status 409 exactly when the key is already present, a remove
  deletes the key, and view queries filter the rows emitted by the
  registered map function by the inclusive key range of the query.
-/

namespace Toku

/-! ## Documents -/

/-- A progress record as stored (key `progress-` ++ id): an integer-valued
JS number `level` and a `reviewed` timestamp that is either a number
(`some`) or `null` (`none`). -/
structure ProgressDoc where
  id : String
  level : ℚ
  reviewed : Option ℚ
  deriving DecidableEq

/-- A document of the backing store, classified by the marker its key
starts with; only the fields the map functions inspect are carried. -/
inductive Doc where
  | progress (p : ProgressDoc)
  | card (id : String)
  | review (id : String)
  | other (id : String)
  deriving DecidableEq

/-- The value emitted by the view map functions: an object holding the
`card-`-keyed id of the sibling card plus the progress summary. -/
structure EmittedCard where
  id : String
  level : ℚ
  reviewed : Option ℚ
  deriving DecidableEq

/-! ## Map functions (`newCardMapFunction`, `getOverduenessFunction`) -/

/-- Embedding of `newCardMapFunction`: skip any document whose key does
not start with `progress-` and any progress document whose `reviewed`
field is not `null`; otherwise emit the document key together with the
card id and progress summary. -/
def newCardMapFn (doc : Doc) : Option (String × EmittedCard) :=
  match doc with
  | .progress p =>
    match p.reviewed with
    | none => some ("progress-" ++ p.id, ⟨"card-" ++ p.id, p.level, none⟩)
    | some _ => none
  | _ => none

/-- Embedding of `getCards({type: 'new'})`: query the `new_cards` view and
return the emitted values.  The optional `limit` and the (descending) row
order of the underlying query are not modelled; the claims checked below
are about which entities appear at all. -/
def getCardsNew (docs : List Doc) : List EmittedCard :=
  (docs.filterMap newCardMapFn).map Prod.snd

/-- `MS_PER_DAY` from the source. -/
def MS_PER_DAY : ℚ := 1000 * 60 * 60 * 24

/-- `EXP_FACTOR` from the source. -/
noncomputable def EXP_FACTOR : ℝ := 0.00225

/-- The value of the JavaScript constant `Number.MAX_VALUE`
(the largest finite IEEE-754 double, `(2 - 2⁻⁵²) · 2¹⁰²³`). -/
noncomputable def MAX_VALUE : ℝ := 2 ^ 1024 - 2 ^ 971

/-- The value of the JavaScript constant `Number.MAX_SAFE_INTEGER`. -/
def MAX_SAFE_INTEGER : ℚ := 9007199254740991

/-- The score computed by `getOverduenessFunction` for a progress record
with nonzero level and numeric `reviewed` timestamp. -/
noncomputable def overdueValue (reviewTime level reviewed : ℚ) : ℝ :=
  let daysDiff : ℝ := ((reviewTime : ℝ) - (reviewed : ℝ)) / (MS_PER_DAY : ℝ)
  let daysOverdue : ℝ := daysDiff - (level : ℝ)
  let linearComponent : ℝ := daysOverdue / (level : ℝ)
  let expComponent : ℝ := Real.exp (EXP_FACTOR * daysOverdue) - 1
  linearComponent + expComponent

/-- Embedding of the map function returned by `getOverduenessFunction`:
skip documents whose key does not start with `progress-` and documents
whose `level` or `reviewed` field is not a number; emit the sentinel key
`Number.MAX_VALUE` for level-0 records and `overdueValue` otherwise. -/
noncomputable def overduenessMapFn (reviewTime : ℚ) (doc : Doc) :
    Option (ℝ × EmittedCard) :=
  match doc with
  | .progress p =>
    match p.reviewed with
    | none => none
    | some reviewed =>
      if p.level = 0 then
        some (MAX_VALUE, ⟨"card-" ++ p.id, 0, some reviewed⟩)
      else
        some (overdueValue reviewTime p.level reviewed,
              ⟨"card-" ++ p.id, p.level, some reviewed⟩)
  | _ => none

/-- Scoring function modelled from the spec's words, for comparison with
the embedding `overdueValue`:
`daysOverdue = (referenceTime - R) / 86400000 - L`,
`score = daysOverdue / L + (e ^ (0.00225 * daysOverdue) - 1)`. -/
noncomputable def specOverduenessScore (referenceTime reviewed level : ℚ) : ℝ :=
  let daysOverdue : ℝ :=
    ((referenceTime : ℝ) - (reviewed : ℝ)) / 86400000 - (level : ℝ)
  daysOverdue / (level : ℝ) + (Real.exp (0.00225 * daysOverdue) - 1)

/-- The `daysOverdue` quantity of the spec formula, over `ℚ`. -/
def specDaysOverdue (referenceTime reviewed level : ℚ) : ℚ :=
  (referenceTime - reviewed) / 86400000 - level

/-- Embedding of `getCards({type: 'overdue', skipFailedCards: true})`:
query the `overdueness` view descending with `startkey =
Number.MAX_SAFE_INTEGER` and `endkey = 0` (both inclusive) and return the
emitted values of the rows in range.  The optional `limit` and the row
order are not modelled. -/
noncomputable def overdueQuerySkipFailed (reviewTime : ℚ) (docs : List Doc) :
    List EmittedCard :=
  ((docs.filterMap (overduenessMapFn reviewTime)).filter
    (fun row => decide (0 ≤ row.1 ∧ row.1 ≤ (MAX_SAFE_INTEGER : ℝ)))).map
    Prod.snd

/-! ## `_putNewCard` (claim C2) -/

/-- The card half of a new entity (mandatory fields filled in). -/
structure CardContent where
  question : String
  answer : String
  created : String
  modified : String
  deriving DecidableEq

/-- The progress half of a new entity. -/
structure ProgressContent where
  level : ℚ
  reviewed : Option ℚ
  deriving DecidableEq

/-- A stored document of the backing database (only the two halves used by
`_putNewCard` are needed). -/
inductive StoredDoc where
  | cardDoc (c : CardContent)
  | progressDoc (p : ProgressContent)
  deriving DecidableEq

/-- The backing database, keyed by full document key. -/
abbrev DBState := String → Option StoredDoc

/-- An error reported by the backing database for a failed write. -/
structure PutError where
  status : ℕ
  deriving DecidableEq

/-- Embedding of the inner `tryPutNewCard` loop of `_putNewCard`.

A put fails with status 409 exactly when the key already holds a document;
the unbounded JS retry recursion is modelled with `fuel`, and `freshIds`
supplies the `CardStore.generateCardId()` results used on retry.
`progressWriteError` injects a backing-store failure into the progress
write (in the source, any error from `db.put(progressToPut)`); on such a
failure the source logs, removes the just-written card using the revision
returned by the card put, and rethrows the error.  The model is
single-writer, so the best-effort remove always succeeds. -/
def tryPutNewCard (fuel : ℕ) (card : CardContent) (progress : ProgressContent)
    (progressWriteError : Option PutError) (db : DBState) (id : String)
    (freshIds : List String) :
    Except PutError (String × CardContent × ProgressContent) × DBState :=
  match fuel with
  | 0 => (Except.error ⟨409⟩, db)
  | fuel + 1 =>
    if (db ("card-" ++ id)).isSome then
      match freshIds with
      | [] => (Except.error ⟨409⟩, db)
      | nid :: rest => tryPutNewCard fuel card progress progressWriteError db nid rest
    else
      let db1 : DBState :=
        fun k => if k = "card-" ++ id then some (StoredDoc.cardDoc card) else db k
      match progressWriteError with
      | some e =>
        let db2 : DBState := fun k => if k = "card-" ++ id then none else db1 k
        (Except.error e, db2)
      | none =>
        if (db1 ("progress-" ++ id)).isSome then
          let db2 : DBState := fun k => if k = "card-" ++ id then none else db1 k
          (Except.error ⟨409⟩, db2)
        else
          let db2 : DBState :=
            fun k =>
              if k = "progress-" ++ id then some (StoredDoc.progressDoc progress)
              else db1 k
          (Except.ok (id, card, progress), db2)

/-! ## Review-session conflict resolution (claim C3) -/

/-- A review-session record (`ReviewRecord` in the source). -/
structure ReviewRecord where
  reviewTime : ℚ
  maxCards : ℕ
  maxNewCards : ℕ
  completed : ℕ
  newCardsCompleted : ℕ
  history : List String
  failedCardsLevel1 : List String
  failedCardsLevel2 : List String
  deriving DecidableEq

/-- The `completeness` score of `onSyncReviewChange`:
`completed - failedCardsLevel2.length * 2 - failedCardsLevel1.length`. -/
def completeness (review : ReviewRecord) : ℤ :=
  (review.completed : ℤ) - (review.failedCardsLevel2.length : ℤ) * 2 -
    (review.failedCardsLevel1.length : ℤ)

/-- The comparator passed to `resolveConflicts` by `onSyncReviewChange`:
`completeness(a) >= completeness(b) ? a : b`. -/
def reviewConflictResolver (a b : ReviewRecord) : ReviewRecord :=
  if completeness b ≤ completeness a then a else b

/-! ## Sync change dispatch (claim C7) -/

/-- The marker a replicated document's key starts with. -/
inductive DocKind where
  | card
  | progress
  | review
  | design
  | note
  deriving DecidableEq

/-- What `onSyncChange` can observe about one incoming replicated
document: its key marker, its `_deleted` flag, and whether reading it back
with `conflicts: true` reports unresolved conflicting revisions. -/
structure SyncDocInfo where
  kind : DocKind
  deleted : Bool
  hasConflicts : Bool
  deriving DecidableEq

/-- Embedding of `onSyncReviewChange` up to the `resolveConflicts` call:
it returns early on `_deleted` documents and on documents without
unresolved conflicts, and calls `resolveConflicts` otherwise. -/
def syncReviewResolutionRuns (d : SyncDocInfo) : Bool :=
  !d.deleted && d.hasConflicts

/-- Embedding of the dispatch in `onSyncChange`: only documents whose key
starts with `review-` are handed to `onSyncReviewChange`; every other
document is skipped. -/
def syncResolutionRuns (d : SyncDocInfo) : Bool :=
  d.kind == DocKind.review && syncReviewResolutionRuns d

/-! ## Sync session callbacks (claims C4 and C6) -/

/-- The identity guard at the top of `wrapCallback` / `changeCallback`:
an event is delivered only when the store still has a remote database and
its name equals `originalDbName`, the name captured when the session
started.  `currentRemote` is `none` when `this.remoteDb` is `undefined`. -/
def callbackFires (currentRemote : Option String) (originalDbName : String) : Bool :=
  match currentRemote with
  | none => false
  | some name => name == originalDbName

/-- The `localUpdateSeq` / `remoteUpdateSeq` state captured by
`setSyncServer` before starting the live sync; both are set to `undefined`
(`none`) once progress reporting degenerates. -/
structure SeqState where
  localUpdateSeq : Option ℕ
  remoteUpdateSeq : Option ℕ
  deriving DecidableEq

/-- The sync-session events relevant to the callback wiring.  A `change`
event carries `info.change.last_seq` (`0` models a falsy value). -/
inductive SyncEvent where
  | change (lastSeq : ℕ)
  | paused
  | active
  deriving DecidableEq

/-- The progress computation of `changeCallback` (after the identity
guard): when both sequence bounds are numbers and `last_seq` is truthy,
either detect a degenerate denominator (`current < lower` or
`upper = lower`), clear both bounds and report `null`, or report
`(current - lower) / (upper - lower)`.  Returns the value passed to
`onProgress` and the updated bounds. -/
def changeProgress (st : SeqState) (lastSeq : ℕ) : Option ℚ × SeqState :=
  match st.localUpdateSeq, st.remoteUpdateSeq with
  | some l, some r =>
    if lastSeq ≠ 0 then
      let upper := max l r
      let lower := min l r
      let current := lastSeq
      if current < lower ∨ upper = lower then
        (none, ⟨none, none⟩)
      else
        (some (((current : ℚ) - (lower : ℚ)) / ((upper : ℚ) - (lower : ℚ))), st)
    else (none, st)
  | _, _ => (none, st)

/-- One delivered event of a sync session for a caller that registered
both `onProgress` and `onIdle` (so the wrapped `paused` handler that
clears the sequence bounds is installed).  `delivered` is the result of
the identity guard; a guarded-out event does nothing at all.  The first
component is `some p` when `onProgress` is invoked with `p` (`p = none`
models a `null` progress argument). -/
def sessionStep (delivered : Bool) (st : SeqState) (e : SyncEvent) :
    Option (Option ℚ) × SeqState :=
  if delivered then
    match e with
    | .change n =>
      let out := changeProgress st n
      (some out.1, out.2)
    | .paused => (none, ⟨none, none⟩)
    | .active => (none, st)
  else (none, st)

/-- Run a sync session over a list of events, collecting the arguments of
the `onProgress` invocations in order. -/
def runSession (delivered : Bool) (st : SeqState) :
    List SyncEvent → List (Option ℚ) × SeqState
  | [] => ([], st)
  | e :: es =>
    let step := sessionStep delivered st e
    let rest := runSession delivered step.2 es
    (step.1.toList ++ rest.1, rest.2)

/-! ## Card id generation (claim C8) -/

/-- The character for digit `0`. -/
def zeroChar : Char := Char.ofNat 48

/-- The base-36 digit characters used by JavaScript
`Number.prototype.toString(36)`: `0`-`9` then `a`-`z`. -/
def digitChar36 (n : ℕ) : Char :=
  if n < 10 then Char.ofNat (48 + n) else Char.ofNat (87 + n)

/-- Base-36 rendering, most significant digit first (fuel-driven so that
it reduces definitionally; `fuel = n + 1` always suffices). -/
def toBase36Aux : ℕ → ℕ → List Char
  | 0, _ => []
  | fuel + 1, n =>
    if n < 36 then [digitChar36 n]
    else toBase36Aux fuel (n / 36) ++ [digitChar36 (n % 36)]

/-- `n.toString(36)` for a natural number `n`. -/
def toBase36 (n : ℕ) : List Char := toBase36Aux (n + 1) n

/-- The source's zero pad of the timestamp: `('0' + s).slice(-8)`. -/
def padTo8 (s : List Char) : List Char :=
  let t := zeroChar :: s
  t.drop (t.length - 8)

/-- The source's zero pad of the random tail: `('00' + s).slice(-3)`. -/
def padTo3 (s : List Char) : List Char :=
  let t := zeroChar :: zeroChar :: s
  t.drop (t.length - 3)

/-- The id string built by `generateCardId` from a (possibly bumped)
timestamp and the result `rand` of `Math.floor(Math.random() * 46656)`. -/
def cardIdString (timestamp rand : ℕ) : String :=
  String.mk (padTo8 (toBase36 timestamp) ++ padTo3 (toBase36 (rand % 46656)))

/-- One call of `CardStore.generateCardId()`: `clock` is
`Date.now() - Date.UTC(2016, 0, 1)` and `prev` the module-level
`prevTimeStamp`; a clock reading at or below `prev` is bumped to
`prev + 1`.  Returns the id and the new `prevTimeStamp`. -/
def genStep (prev : ℕ) (clock rand : ℕ) : String × ℕ :=
  let timestamp := if clock ≤ prev then prev + 1 else clock
  (cardIdString timestamp rand, timestamp)

/-- Run a sequence of `generateCardId` calls, each with its own clock
reading and random draw, threading `prevTimeStamp`. -/
def runGenerator (prev : ℕ) : List (ℕ × ℕ) → List String × ℕ
  | [] => ([], prev)
  | c :: cs =>
    let g := genStep prev c.1 c.2
    let rest := runGenerator g.2 cs
    (g.1 :: rest.1, rest.2)

/-- Proof-side helper: the big-endian base-36 digit vector of fixed width
`k`. -/
def digitsBE : ℕ → ℕ → List Char
  | 0, _ => []
  | k + 1, n => digitChar36 (n / 36 ^ k) :: digitsBE k (n % 36 ^ k)

/-! ## Note conflict resolution (claim C9) -/

/-- A note document (`NoteContent` in the source). -/
structure NoteRecord where
  content : String
  keywords : List String
  created : ℚ
  modified : ℚ
  deriving DecidableEq

/-- The comparator passed to `resolveConflicts` by `NoteStore.onSyncChange`:
`if (a.created > b.created) return a; return a.modified >= b.created ? a : b`. -/
def noteConflictResolver (a b : NoteRecord) : NoteRecord :=
  if b.created < a.created then a
  else if b.created ≤ a.modified then a
  else b

/-! ## Theorems -/

/-- Claim C3: for every pair of conflicting review-session revisions `a`
and `b`, conflict resolution keeps the revision with the strictly higher
completeness score `completed − 2·|failedCardsLevel2| − |failedCardsLevel1|`,
and when the two scores are equal the first revision always wins, so the
tie break is deterministic. -/
theorem C3_review_conflict_completeness (a b : ReviewRecord) :
    (completeness b < completeness a → reviewConflictResolver a b = a) ∧
    (completeness a < completeness b → reviewConflictResolver a b = b) ∧
    (completeness a = completeness b → reviewConflictResolver a b = a) := by
  unfold reviewConflictResolver
  refine ⟨fun h => if_pos (le_of_lt h), fun h => if_neg (not_le.mpr h),
    fun h => if_pos (le_of_eq h.symm)⟩

/-- Concrete run of `C3_review_conflict_completeness`: a review with 5
completed cards and no failures beats one with 3 completed cards. -/
theorem C3_review_conflict_completeness_witness :
    completeness ⟨0, 10, 5, 3, 0, [], [], []⟩ <
      completeness ⟨0, 10, 5, 5, 0, [], [], []⟩ ∧
    reviewConflictResolver ⟨0, 10, 5, 5, 0, [], [], []⟩
        ⟨0, 10, 5, 3, 0, [], [], []⟩ = ⟨0, 10, 5, 5, 0, [], [], []⟩ :=
  ⟨by decide,
   (C3_review_conflict_completeness ⟨0, 10, 5, 5, 0, [], [], []⟩
     ⟨0, 10, 5, 3, 0, [], [], []⟩).1 (by decide)⟩

/-- Claim C9 counterexample: revision `b` has the strictly later `created`
timestamp (5 versus 1), yet the resolver keeps `a` because `a.modified`
(10) is not earlier than `b.created`; so resolution does not prefer the
revision with the later `created` timestamp. -/
theorem C9_note_conflict_cex :
    (⟨"", [], 1, 10⟩ : NoteRecord).created <
      (⟨"", [], 5, 5⟩ : NoteRecord).created ∧
    noteConflictResolver ⟨"", [], 1, 10⟩ ⟨"", [], 5, 5⟩ = ⟨"", [], 1, 10⟩ := by
  exact ⟨by decide, by decide⟩

/-- Claim C9 (amended): note conflict resolution keeps the first revision
`a` when `a.created > b.created`; otherwise it keeps `a` exactly when
`a.modified ≥ b.created`, and `b` otherwise.  In particular a later
`created` on `b` does not make `b` win, and `b.modified` is never
consulted. -/
theorem C9_note_conflict_resolution (a b : NoteRecord) :
    (b.created < a.created → noteConflictResolver a b = a) ∧
    (a.created ≤ b.created → b.created ≤ a.modified →
      noteConflictResolver a b = a) ∧
    (a.created ≤ b.created → a.modified < b.created →
      noteConflictResolver a b = b) := by
  unfold noteConflictResolver
  refine ⟨fun h => if_pos h, fun h h2 => ?_, fun h h2 => ?_⟩
  · rw [if_neg (not_lt.mpr h), if_pos h2]
  · rw [if_neg (not_lt.mpr h), if_neg (not_le.mpr h2)]

/-- Concrete runs of `C9_note_conflict_resolution`, one per case. -/
theorem C9_note_conflict_resolution_witness :
    ((1 : ℚ) < 5 ∧
      noteConflictResolver ⟨"", [], 5, 5⟩ ⟨"", [], 1, 1⟩ = ⟨"", [], 5, 5⟩) ∧
    ((1 : ℚ) ≤ 5 ∧ (5 : ℚ) ≤ 10 ∧
      noteConflictResolver ⟨"", [], 1, 10⟩ ⟨"", [], 5, 0⟩ = ⟨"", [], 1, 10⟩) ∧
    ((1 : ℚ) ≤ 5 ∧ (2 : ℚ) < 5 ∧
      noteConflictResolver ⟨"", [], 1, 2⟩ ⟨"", [], 5, 0⟩ = ⟨"", [], 5, 0⟩) :=
  ⟨⟨by decide,
    (C9_note_conflict_resolution ⟨"", [], 5, 5⟩ ⟨"", [], 1, 1⟩).1 (by decide)⟩,
   ⟨by decide, by decide,
    (C9_note_conflict_resolution ⟨"", [], 1, 10⟩ ⟨"", [], 5, 0⟩).2.1
      (by decide) (by decide)⟩,
   ⟨by decide, by decide,
    (C9_note_conflict_resolution ⟨"", [], 1, 2⟩ ⟨"", [], 5, 0⟩).2.2
      (by decide) (by decide)⟩⟩

/-- Claim C7 counterexample: an incoming replicated card document with
unresolved conflicting revisions is never handed to the conflict resolver,
because `onSyncChange` dispatches only on the `review-` key marker. -/
theorem C7_sync_dispatch_cex :
    (⟨DocKind.card, false, true⟩ : SyncDocInfo).hasConflicts = true ∧
    syncResolutionRuns ⟨DocKind.card, false, true⟩ = false :=
  ⟨rfl, rfl⟩

/-- Claim C7 (amended): conflict resolution is attempted exactly for the
incoming replicated documents whose key starts with `review-`, that are
not deletions, and for which the store reports unresolved conflicting
revisions; documents with any other key marker are skipped even when they
have unresolved conflicts. -/
theorem C7_sync_dispatch (d : SyncDocInfo) :
    syncResolutionRuns d = true ↔
      d.kind = DocKind.review ∧ d.deleted = false ∧ d.hasConflicts = true := by
  rcases d with ⟨k, dl, hc⟩
  cases k <;> cases dl <;> cases hc <;>
    simp [syncResolutionRuns, syncReviewResolutionRuns]

/-- Claim C4 counterexample: when the sync target is reconfigured to a
remote with the very same name as the canceled session's remote, the
identity guard of the canceled session still passes, and a late change
event from the canceled session is delivered — it even reports progress. -/
theorem C4_cancel_guard_cex :
    callbackFires (some "http://server/db") "http://server/db" = true ∧
    (runSession (callbackFires (some "http://server/db") "http://server/db")
        ⟨some 0, some 2⟩ [SyncEvent.change 1]).1 = [some (1 / 2)] := by
  refine ⟨rfl, ?_⟩
  simp [runSession, sessionStep, changeProgress, callbackFires]

/-- Claim C4 (amended): a late-arriving event from a canceled sync session
is dropped — invoking no callback and leaving the session state untouched —
exactly when the store's current remote is absent or its name differs from
the name captured at the canceled session's start.  The identity token is
the remote database name, so every disconnect and every reconfiguration to
a differently-named remote drops such events, but a reconfiguration to a
remote with the same name does not. -/
theorem C4_cancel_guard (currentRemote : Option String) (origName : String) :
    (callbackFires currentRemote origName = true ↔
      currentRemote = some origName) ∧
    (currentRemote ≠ some origName →
      ∀ (st : SeqState) (e : SyncEvent),
        sessionStep (callbackFires currentRemote origName) st e = (none, st)) := by
  constructor
  · cases currentRemote with
    | none => simp [callbackFires]
    | some name => simp [callbackFires]
  · intro hne st e
    have hfalse : callbackFires currentRemote origName = false := by
      cases currentRemote with
      | none => rfl
      | some name =>
        simp only [callbackFires, beq_eq_false_iff_ne, ne_eq]
        intro h
        exact hne (by rw [h])
    rw [hfalse]
    rfl

/-- Concrete run of `C4_cancel_guard`: after a disconnect (no current
remote) a late change event from the old session does nothing. -/
theorem C4_cancel_guard_witness :
    (none : Option String) ≠ some "http://server/db" ∧
    sessionStep (callbackFires none "http://server/db") ⟨some 0, some 2⟩
      (SyncEvent.change 1) = (none, ⟨some 0, some 2⟩) :=
  ⟨by decide,
   (C4_cancel_guard none "http://server/db").2 (by decide) ⟨some 0, some 2⟩
     (SyncEvent.change 1)⟩

/-- Claim C5 counterexample: the `new_cards` view lists a record with
level 1 and null `reviewed`, and omits a level-0 record whose `reviewed`
is a number, so the "new only" listing is not "exactly the level-0
entities". -/
theorem C5_new_listing_cex :
    getCardsNew [Doc.progress ⟨"a", 1, none⟩] = [⟨"card-a", 1, none⟩] ∧
    (1 : ℚ) ≠ 0 ∧
    getCardsNew [Doc.progress ⟨"b", 0, some 5⟩] = [] :=
  ⟨rfl, by norm_num, rfl⟩

/-- Claim C5 (amended): `getCards({type: 'new'})` returns exactly the
entities whose progress `reviewed` field is null (never reviewed),
whatever their level; the level is not consulted at all. -/
theorem C5_new_listing (docs : List Doc) (e : EmittedCard) :
    e ∈ getCardsNew docs ↔
      ∃ p : ProgressDoc, Doc.progress p ∈ docs ∧ p.reviewed = none ∧
        e = ⟨"card-" ++ p.id, p.level, none⟩ := by
  unfold getCardsNew
  rw [List.mem_map]
  constructor
  · rintro ⟨kv, hkv, rfl⟩
    rcases List.mem_filterMap.mp hkv with ⟨d, hd, hfn⟩
    cases d with
    | progress p =>
      cases hrev : p.reviewed with
      | none =>
        refine ⟨p, hd, hrev, ?_⟩
        simp only [newCardMapFn, hrev] at hfn
        cases hfn
        rfl
      | some t => simp [newCardMapFn, hrev] at hfn
    | card id => simp [newCardMapFn] at hfn
    | review id => simp [newCardMapFn] at hfn
    | other id => simp [newCardMapFn] at hfn
  · rintro ⟨p, hp, hrev, rfl⟩
    refine ⟨("progress-" ++ p.id, ⟨"card-" ++ p.id, p.level, none⟩), ?_, rfl⟩
    exact List.mem_filterMap.mpr ⟨Doc.progress p, hp, by simp [newCardMapFn, hrev]⟩

/-- Claim C2: in `_putNewCard`, when the card write succeeds (the chosen
id is free) and the paired progress write then fails, the operation
rejects with that very error and the resulting store maps every key
exactly as the initial store did — in particular the just-written card has
been removed again, so no card-only entity is left behind. -/
theorem C2_put_new_card_rollback (fuel : ℕ) (card : CardContent)
    (progress : ProgressContent) (e : PutError) (db : DBState) (id : String)
    (freshIds : List String) (hfree : db ("card-" ++ id) = none) :
    (tryPutNewCard (fuel + 1) card progress (some e) db id freshIds).1 =
      Except.error e ∧
    ∀ k, (tryPutNewCard (fuel + 1) card progress (some e) db id freshIds).2 k
      = db k := by
  have hred : tryPutNewCard (fuel + 1) card progress (some e) db id freshIds =
      (Except.error e,
        fun k => if k = "card-" ++ id then none
          else if k = "card-" ++ id then some (StoredDoc.cardDoc card) else db k) := by
    rw [tryPutNewCard.eq_def]
    rw [hfree]
    rfl
  rw [hred]
  refine ⟨rfl, fun k => ?_⟩
  by_cases hk : k = "card-" ++ id
  · simp only [hk, if_pos rfl]
    exact hfree.symm
  · simp only [if_neg hk]

/-- Concrete run of `C2_put_new_card_rollback`: an empty store, a progress
write failing with status 500; the call rejects with that error and the
card key is empty again afterwards. -/
theorem C2_put_new_card_rollback_witness :
    ((fun _ => none : DBState) ("card-" ++ "abc") = none) ∧
    (tryPutNewCard 1 ⟨"q", "a", "c", "m"⟩ ⟨0, none⟩ (some ⟨500⟩)
      (fun _ => none) "abc" []).1 = Except.error ⟨500⟩ ∧
    (tryPutNewCard 1 ⟨"q", "a", "c", "m"⟩ ⟨0, none⟩ (some ⟨500⟩)
      (fun _ => none) "abc" []).2 "card-abc" = none :=
  ⟨rfl,
   (C2_put_new_card_rollback 0 ⟨"q", "a", "c", "m"⟩ ⟨0, none⟩ ⟨500⟩
     (fun _ => none) "abc" [] rfl).1,
   (C2_put_new_card_rollback 0 ⟨"q", "a", "c", "m"⟩ ⟨0, none⟩ ⟨500⟩
     (fun _ => none) "abc" [] rfl).2 "card-abc"⟩

/-- Helper: from the cleared state, a session step stays cleared and any
`onProgress` invocation it makes passes `null`. -/
theorem sessionStep_cleared_state (g : Bool) (e : SyncEvent) :
    (sessionStep g ⟨none, none⟩ e).2 = ⟨none, none⟩ ∧
    ∀ q ∈ (sessionStep g ⟨none, none⟩ e).1.toList, q = none := by
  cases g <;> cases e <;> simp [sessionStep, changeProgress]

/-- Helper: from the cleared state, a whole session run stays cleared and
every `onProgress` invocation passes `null`. -/
theorem runSession_cleared (g : Bool) (es : List SyncEvent) :
    (runSession g ⟨none, none⟩ es).2 = ⟨none, none⟩ ∧
    ∀ q ∈ (runSession g ⟨none, none⟩ es).1, q = none := by
  induction es with
  | nil => simp [runSession]
  | cons e es ih =>
    have hs := sessionStep_cleared_state g e
    constructor
    · simp only [runSession]
      rw [hs.1]
      exact ih.1
    · intro q hq
      simp only [runSession] at hq
      rw [hs.1] at hq
      rcases List.mem_append.mp hq with h | h
      · exact hs.2 q h
      · exact ih.2 q h

/-- Helper: a session step from the initial two-bound state either keeps
that state or clears both bounds. -/
theorem sessionStep_orig_state (g : Bool) (l r : ℕ) (e : SyncEvent) :
    (sessionStep g ⟨some l, some r⟩ e).2 = ⟨some l, some r⟩ ∨
    (sessionStep g ⟨some l, some r⟩ e).2 = ⟨none, none⟩ := by
  cases g with
  | false => left; rfl
  | true =>
    cases e with
    | change n =>
      simp only [sessionStep, if_pos, changeProgress]
      split_ifs <;> simp
    | paused => right; rfl
    | active => left; rfl

/-- Helper: every fraction a session run reports through `onProgress`
comes from a change event seen in the two-bound state and equals
`(lastSeq − min l r) / (max l r − min l r)` for a `lastSeq` at least
`min l r`, with `min l r < max l r`. -/
theorem runSession_progress_values (g : Bool) (l r : ℕ) (es : List SyncEvent)
    (x : ℚ) (hx : some x ∈ (runSession g ⟨some l, some r⟩ es).1) :
    ∃ n : ℕ, min l r ≤ n ∧ min l r < max l r ∧
      x = ((n : ℚ) - ((min l r : ℕ) : ℚ)) /
        (((max l r : ℕ) : ℚ) - ((min l r : ℕ) : ℚ)) := by
  revert hx
  induction es with
  | nil => intro hx; simp [runSession] at hx
  | cons e es ih =>
    intro hx
    simp only [runSession] at hx
    rcases List.mem_append.mp hx with h | h
    · cases g with
      | false => simp [sessionStep] at h
      | true =>
        cases e with
        | change n =>
          simp only [sessionStep, if_pos, changeProgress] at h
          by_cases hn : n ≠ 0
          · rw [if_pos hn] at h
            by_cases hdeg : n < min l r ∨ max l r = min l r
            · rw [if_pos hdeg] at h
              simp at h
            · rw [if_neg hdeg] at h
              push_neg at hdeg
              simp only [Option.toList_some, List.mem_singleton,
                Option.some.injEq] at h
              exact ⟨n, hdeg.1, lt_of_le_of_ne min_le_max (Ne.symm hdeg.2), h⟩
          · rw [if_neg hn] at h
            simp at h
        | paused => simp [sessionStep] at h
        | active => simp [sessionStep] at h
    · rcases sessionStep_orig_state g l r e with hst | hst
      · rw [hst] at h
        exact ih h
      · rw [hst] at h
        exact absurd ((runSession_cleared g es).2 _ h) (by simp)

/-- Helper: with the identity guard failing, a session run invokes no
callback at all and leaves the bounds untouched. -/
theorem runSession_guard_false (st : SeqState) (es : List SyncEvent) :
    (runSession false st es).1 = [] ∧ (runSession false st es).2 = st := by
  induction es generalizing st with
  | nil => exact ⟨rfl, rfl⟩
  | cons e es ih =>
    have h1 := (ih st).1
    have h2 := (ih st).2
    constructor
    · simp only [runSession, sessionStep, Bool.false_eq_true, if_false,
        Option.toList_none, List.nil_append]
      exact h1
    · simp only [runSession, sessionStep, Bool.false_eq_true, if_false]
      exact h2

/-- Helper: a session run from the initial two-bound state ends either in
that same state or in the cleared state. -/
theorem runSession_orig_state (g : Bool) (l r : ℕ) (es : List SyncEvent) :
    (runSession g ⟨some l, some r⟩ es).2 = ⟨some l, some r⟩ ∨
    (runSession g ⟨some l, some r⟩ es).2 = ⟨none, none⟩ := by
  induction es with
  | nil => left; rfl
  | cons e es ih =>
    rcases sessionStep_orig_state g l r e with hst | hst
    · simp only [runSession]
      rw [hst]
      exact ih
    · simp only [runSession]
      rw [hst]
      right
      exact (runSession_cleared g es).1

/-- Claim C6 counterexample: with local sequence 0 and remote sequence 10
captured at session start, a change event whose `last_seq` is 20 makes
`onProgress` receive `(20 − 0) / (10 − 0) = 2`, which lies outside the
closed interval `[0, 1]`. -/
theorem C6_sync_progress_cex :
    (runSession true ⟨some 0, some 10⟩ [SyncEvent.change 20]).1 = [some 2] ∧
    ¬ ((2 : ℚ) ≤ 1) := by
  refine ⟨?_, by norm_num⟩
  have h2 : ((20 : ℚ) - 0) / (10 - 0) = 2 := by norm_num
  simp [runSession, sessionStep, changeProgress]
  norm_num

/-- Claim C6 (amended): every fraction reported to `onProgress` during a
session started with sequence bounds `l` and `r` equals
`(lastSeq − min l r) / (max l r − min l r)` for some change sequence
`lastSeq ≥ min l r` with `min l r < max l r`; such a fraction is always
nonnegative, and lies in `[0, 1]` whenever `lastSeq` does not exceed
`max l r` (a change event can outrun the captured upper bound, in which
case the reported value exceeds 1).  Moreover, from the moment the session
reports paused, or a change event degenerates the denominator
(`lastSeq < min l r`, or equal bounds), every subsequent `onProgress`
report is `null`. -/
theorem C6_sync_progress (g : Bool) (l r : ℕ) (es es₂ : List SyncEvent)
    (x : ℚ) :
    (some x ∈ (runSession g ⟨some l, some r⟩ es).1 →
      0 ≤ x ∧
      ∃ n : ℕ, min l r ≤ n ∧ min l r < max l r ∧
        x = ((n : ℚ) - ((min l r : ℕ) : ℚ)) /
          (((max l r : ℕ) : ℚ) - ((min l r : ℕ) : ℚ)) ∧
        ((n : ℚ) ≤ ((max l r : ℕ) : ℚ) → x ≤ 1)) ∧
    (∀ q ∈ (runSession g (runSession g ⟨some l, some r⟩ es).2
        (SyncEvent.paused :: es₂)).1, q = none) ∧
    (∀ n : ℕ, n ≠ 0 → (n < min l r ∨ min l r = max l r) →
      ∀ q ∈ (runSession g (runSession g ⟨some l, some r⟩ es).2
        (SyncEvent.change n :: es₂)).1, q = none) := by
  have hbounds : ∀ n : ℕ, min l r ≤ n → min l r < max l r →
      0 ≤ ((n : ℚ) - ((min l r : ℕ) : ℚ)) /
        (((max l r : ℕ) : ℚ) - ((min l r : ℕ) : ℚ)) ∧
      ((n : ℚ) ≤ ((max l r : ℕ) : ℚ) →
        ((n : ℚ) - ((min l r : ℕ) : ℚ)) /
          (((max l r : ℕ) : ℚ) - ((min l r : ℕ) : ℚ)) ≤ 1) := by
    intro n hlow hltmax
    have hden : (0 : ℚ) < ((max l r : ℕ) : ℚ) - ((min l r : ℕ) : ℚ) := by
      have := (Nat.cast_lt (α := ℚ)).mpr hltmax
      linarith
    have hnum : (0 : ℚ) ≤ (n : ℚ) - ((min l r : ℕ) : ℚ) := by
      have := (Nat.cast_le (α := ℚ)).mpr hlow
      linarith
    refine ⟨div_nonneg hnum (le_of_lt hden), fun hup => ?_⟩
    rw [div_le_one hden]
    linarith
  refine ⟨fun hx => ?_, fun q hq => ?_, fun n hn hdeg q hq => ?_⟩
  · rcases runSession_progress_values g l r es x hx with ⟨n, hlow, hltmax, hform⟩
    rcases hbounds n hlow hltmax with ⟨h0, h1⟩
    exact ⟨hform ▸ h0, n, hlow, hltmax, hform, fun hup => hform ▸ h1 hup⟩
  · cases g with
    | false =>
      rw [(runSession_guard_false _ _).1] at hq
      simp at hq
    | true =>
      have hstep : sessionStep true (runSession true ⟨some l, some r⟩ es).2
          SyncEvent.paused = (none, ⟨none, none⟩) := rfl
      simp only [runSession, hstep, Option.toList_none, List.nil_append] at hq
      exact (runSession_cleared true es₂).2 q hq
  · cases g with
    | false =>
      rw [(runSession_guard_false _ _).1] at hq
      simp at hq
    | true =>
      rcases runSession_orig_state true l r es with hst | hst
      · rw [hst] at hq
        have hdeg2 : n < min l r ∨ max l r = min l r := by
          rcases hdeg with h | h
          · exact Or.inl h
          · exact Or.inr h.symm
        have hstep : sessionStep true ⟨some l, some r⟩ (SyncEvent.change n) =
            (some none, ⟨none, none⟩) := by
          simp only [sessionStep, if_pos, changeProgress]
          rw [if_pos hn, if_pos hdeg2]
        simp only [runSession, hstep, Option.toList_some,
          List.singleton_append] at hq
        rcases List.mem_cons.mp hq with h1 | h1
        · exact h1
        · exact (runSession_cleared true es₂).2 q h1
      · rw [hst] at hq
        exact (runSession_cleared true (SyncEvent.change n :: es₂)).2 q hq

/-- Concrete run of `C6_sync_progress`: with bounds 0 and 10, a change
event at sequence 5 reports the fraction 1/2, which is nonnegative,
matches the formula and does not exceed 1. -/
theorem C6_sync_progress_witness :
    some (1 / 2 : ℚ) ∈
      (runSession true ⟨some 0, some 10⟩ [SyncEvent.change 5]).1 ∧
    (0 ≤ (1 / 2 : ℚ) ∧
      ∃ n : ℕ, min 0 10 ≤ n ∧ min 0 10 < max 0 10 ∧
        (1 / 2 : ℚ) = ((n : ℚ) - ((min 0 10 : ℕ) : ℚ)) /
          (((max 0 10 : ℕ) : ℚ) - ((min 0 10 : ℕ) : ℚ)) ∧
        ((n : ℚ) ≤ ((max 0 10 : ℕ) : ℚ) → (1 / 2 : ℚ) ≤ 1)) := by
  have houts : (runSession true ⟨some 0, some 10⟩ [SyncEvent.change 5]).1
      = [some (1 / 2 : ℚ)] := by
    simp [runSession, sessionStep, changeProgress]
    norm_num
  have hmem : some (1 / 2 : ℚ) ∈
      (runSession true ⟨some 0, some 10⟩ [SyncEvent.change 5]).1 := by
    rw [houts]
    exact List.mem_singleton_self _
  exact ⟨hmem, (C6_sync_progress true 0 10 [SyncEvent.change 5] [] (1 / 2)).1 hmem⟩

/-- Helper: the fixed-width digit vector has the stated width. -/
theorem digitsBE_length (k : ℕ) : ∀ n, (digitsBE k n).length = k := by
  induction k with
  | zero => intro n; rfl
  | succ k ih => intro n; simp [digitsBE, ih]

/-- Helper: peeling the least-significant digit off a fixed-width digit
vector. -/
theorem digitsBE_concat (k : ℕ) :
    ∀ n, n < 36 ^ (k + 1) →
      digitsBE (k + 1) n = digitsBE k (n / 36) ++ [digitChar36 (n % 36)] := by
  induction k with
  | zero =>
    intro n hn
    have hn36 : n < 36 := by simpa using hn
    simp [digitsBE, Nat.mod_eq_of_lt hn36]
  | succ k ih =>
    intro n hn
    have hm : n % 36 ^ (k + 1) < 36 ^ (k + 1) :=
      Nat.mod_lt _ (pow_pos (by norm_num) _)
    have f1 : n / 36 / 36 ^ k = n / 36 ^ (k + 1) := by
      rw [Nat.div_div_eq_div_mul, ← pow_succ']
    have f2 : n % 36 ^ (k + 1) / 36 = n / 36 % 36 ^ k := by
      rw [pow_succ', Nat.mod_mul_right_div_self]
    have f3 : n % 36 ^ (k + 1) % 36 = n % 36 :=
      Nat.mod_mod_of_dvd n (dvd_pow_self 36 (Nat.succ_ne_zero k))
    have step1 : digitsBE (k + 1 + 1) n =
        digitChar36 (n / 36 ^ (k + 1)) :: digitsBE (k + 1) (n % 36 ^ (k + 1)) :=
      rfl
    have step2 : digitsBE (k + 1) (n / 36) ++ [digitChar36 (n % 36)] =
        digitChar36 (n / 36 / 36 ^ k) ::
          (digitsBE k (n / 36 % 36 ^ k) ++ [digitChar36 (n % 36)]) := rfl
    rw [step1, step2, ih _ hm, f2, f3, f1]

/-- Helper: with enough fuel, the base-36 rendering of a number with
exactly `k + 1` digits is the width-`(k + 1)` digit vector. -/
theorem toBase36Aux_eq_digitsBE (k : ℕ) :
    ∀ fuel n, 36 ^ k ≤ n → n < 36 ^ (k + 1) → k < fuel →
      toBase36Aux fuel n = digitsBE (k + 1) n := by
  induction k with
  | zero =>
    intro fuel n h1 h2 hf
    cases fuel with
    | zero => exact absurd hf (Nat.not_lt_zero 0)
    | succ f =>
      have hn36 : n < 36 := by simpa using h2
      show (if n < 36 then [digitChar36 n]
        else toBase36Aux f (n / 36) ++ [digitChar36 (n % 36)]) = _
      rw [if_pos hn36]
      simp [digitsBE]
  | succ k ih =>
    intro fuel n h1 h2 hf
    cases fuel with
    | zero => exact absurd hf (Nat.not_lt_zero _)
    | succ f =>
      have h36 : ¬ n < 36 := by
        have hle : (36 : ℕ) ^ 1 ≤ 36 ^ (k + 1) :=
          pow_le_pow_right₀ (by norm_num) (by omega)
        simp only [pow_one] at hle
        omega
      have hdiv1 : 36 ^ k ≤ n / 36 := by
        rw [Nat.le_div_iff_mul_le (by norm_num)]
        calc 36 ^ k * 36 = 36 ^ (k + 1) := (pow_succ 36 k).symm
          _ ≤ n := h1
      have hdiv2 : n / 36 < 36 ^ (k + 1) := by
        rw [Nat.div_lt_iff_lt_mul (by norm_num)]
        calc n < 36 ^ (k + 1 + 1) := h2
          _ = 36 ^ (k + 1) * 36 := pow_succ 36 (k + 1)
      show (if n < 36 then [digitChar36 n]
        else toBase36Aux f (n / 36) ++ [digitChar36 (n % 36)]) = _
      rw [if_neg h36, ih f (n / 36) hdiv1 hdiv2 (by omega),
        ← digitsBE_concat (k + 1) n h2]

/-- Helper: the base-36 digit characters are strictly increasing below
base 36 (checked by enumeration). -/
theorem digitChar36_lt_aux :
    ∀ a b : Fin 36, a.val < b.val → digitChar36 a.val < digitChar36 b.val := by
  decide

/-- Helper: monotonicity of the digit characters. -/
theorem digitChar36_lt {a b : ℕ} (hab : a < b) (hb : b < 36) :
    digitChar36 a < digitChar36 b :=
  digitChar36_lt_aux ⟨a, lt_trans hab hb⟩ ⟨b, hb⟩ hab

/-- Helper: on numbers below `36 ^ k`, the width-`k` digit vectors compare
lexicographically exactly as the numbers compare. -/
theorem digitsBE_lex (k : ℕ) :
    ∀ a b, a < b → b < 36 ^ k →
      List.Lex (· < ·) (digitsBE k a) (digitsBE k b) := by
  induction k with
  | zero =>
    intro a b hab hb
    simp only [pow_zero] at hb
    omega
  | succ k ih =>
    intro a b hab hb
    have hbq : b / 36 ^ k < 36 := by
      rw [Nat.div_lt_iff_lt_mul (pow_pos (by norm_num) _)]
      calc b < 36 ^ (k + 1) := hb
        _ = 36 * 36 ^ k := pow_succ' 36 k
    have hq : a / 36 ^ k ≤ b / 36 ^ k := Nat.div_le_div_right (le_of_lt hab)
    rcases lt_or_eq_of_le hq with hlt | heq
    · exact List.Lex.rel (digitChar36_lt hlt hbq)
    · have hhead : digitsBE (k + 1) a =
          digitChar36 (b / 36 ^ k) :: digitsBE k (a % 36 ^ k) := by
        show digitChar36 (a / 36 ^ k) :: digitsBE k (a % 36 ^ k) = _
        rw [heq]
      rw [hhead]
      show List.Lex (· < ·) (_ :: digitsBE k (a % 36 ^ k))
        (_ :: digitsBE k (b % 36 ^ k))
      refine List.Lex.cons (ih _ _ ?_ (Nat.mod_lt _ (pow_pos (by norm_num) _)))
      have ha' := Nat.div_add_mod a (36 ^ k)
      have hb' := Nat.div_add_mod b (36 ^ k)
      rw [← heq] at hb'
      omega

/-- Helper: appending arbitrary suffixes to two equal-length
lexicographically-ordered lists keeps them ordered. -/
theorem lex_append :
    ∀ {l₁ l₂ : List Char}, List.Lex (· < ·) l₁ l₂ →
      ∀ xs ys : List Char, l₁.length = l₂.length →
        List.Lex (· < ·) (l₁ ++ xs) (l₂ ++ ys) := by
  intro l₁ l₂ h
  induction h with
  | nil => intro xs ys hlen; simp at hlen
  | cons h ih =>
    intro xs ys hlen
    exact List.Lex.cons (ih xs ys (by simpa using hlen))
  | rel h => intro xs ys _; exact List.Lex.rel h

/-- Helper: on the clock range `[36 ^ 6, 36 ^ 8)` (26 January 2016 up to
roughly the year 4786), the source's `('0' + s).slice(-8)` pad yields
exactly the width-8 digit vector of the timestamp. -/
theorem padTo8_toBase36 (n : ℕ) (h1 : 36 ^ 6 ≤ n) (h2 : n < 36 ^ 8) :
    padTo8 (toBase36 n) = digitsBE 8 n := by
  have hfuel : ∀ k : ℕ, 36 ^ k ≤ n → k < n + 1 := by
    intro k hk
    have := Nat.lt_pow_self (by norm_num : 1 < 36) k
    omega
  rcases lt_or_le n (36 ^ 7) with h7 | h7
  · have hb : toBase36 n = digitsBE 7 n := by
      rw [toBase36]
      exact toBase36Aux_eq_digitsBE 6 (n + 1) n h1 h7 (hfuel 6 h1)
    have hlen : (digitsBE 7 n).length = 7 := digitsBE_length 7 n
    have hpad : padTo8 (toBase36 n) = zeroChar :: digitsBE 7 n := by
      rw [padTo8, hb]
      simp [hlen]
    rw [hpad]
    have hhead : digitsBE 8 n = digitChar36 (n / 36 ^ 7) :: digitsBE 7 (n % 36 ^ 7) :=
      rfl
    rw [hhead, Nat.div_eq_of_lt h7, Nat.mod_eq_of_lt h7]
    rfl
  · have hb : toBase36 n = digitsBE 8 n := by
      rw [toBase36]
      exact toBase36Aux_eq_digitsBE 7 (n + 1) n h7 h2 (hfuel 7 h7)
    have hlen : (digitsBE 8 n).length = 8 := digitsBE_length 8 n
    rw [padTo8, hb]
    simp [hlen]

/-- Helper: on the in-range clock span, a strictly smaller timestamp gives
a strictly smaller generated id, whatever the two random tails are. -/
theorem cardIdString_lt {a b : ℕ} (ha6 : 36 ^ 6 ≤ a) (hab : a < b)
    (hb8 : b < 36 ^ 8) (ra rb : ℕ) :
    cardIdString a ra < cardIdString b rb := by
  have ha8 : a < 36 ^ 8 := lt_trans hab hb8
  have hb6 : 36 ^ 6 ≤ b := le_of_lt (lt_of_le_of_lt ha6 hab)
  have hlex : List.Lex (· < ·) (digitsBE 8 a) (digitsBE 8 b) :=
    digitsBE_lex 8 a b hab hb8
  have happ := lex_append hlex (padTo3 (toBase36 (ra % 46656)))
    (padTo3 (toBase36 (rb % 46656)))
    (by rw [digitsBE_length, digitsBE_length])
  rw [cardIdString, cardIdString, String.lt_iff_toList_lt,
    padTo8_toBase36 a ha6 ha8, padTo8_toBase36 b hb6 hb8]
  exact happ

/-- Helper: each `generateCardId` call strictly advances the stored
timestamp. -/
theorem genStep_ts_gt (prev clock rand : ℕ) : prev < (genStep prev clock rand).2 := by
  rw [genStep]
  split
  · omega
  · next h => omega

/-- Helper: the timestamp a call uses is at least its clock reading. -/
theorem genStep_ts_ge_clock (prev clock rand : ℕ) :
    clock ≤ (genStep prev clock rand).2 := by
  rw [genStep]
  split
  · next h => omega
  · omega

/-- Helper: the stored timestamp never decreases over a run. -/
theorem runGenerator_final_ge (cs : List (ℕ × ℕ)) :
    ∀ prev, prev ≤ (runGenerator prev cs).2 := by
  induction cs with
  | nil => intro prev; exact le_refl prev
  | cons c cs ih =>
    intro prev
    have h1 := genStep_ts_gt prev c.1 c.2
    have h2 := ih (genStep prev c.1 c.2).2
    simp only [runGenerator]
    omega

/-- Helper: a run whose clock readings are all at least `36 ^ 6` and whose
final stored timestamp stays below `36 ^ 8` produces ids that are strictly
ascending by string comparison; moreover every produced id comes from an
in-range timestamp above the starting `prevTimeStamp`. -/
theorem runGenerator_sorted_aux (cs : List (ℕ × ℕ)) :
    ∀ prev, (cs.all fun c => decide (36 ^ 6 ≤ c.1)) = true →
      (runGenerator prev cs).2 < 36 ^ 8 →
      List.Pairwise (· < ·) (runGenerator prev cs).1 ∧
      ∀ s ∈ (runGenerator prev cs).1, ∃ t rand : ℕ,
        s = cardIdString t rand ∧ prev < t ∧ 36 ^ 6 ≤ t ∧ t < 36 ^ 8 := by
  induction cs with
  | nil => intro prev _ _; simp [runGenerator]
  | cons c cs ih =>
    intro prev hclocks hfinal
    have hc : 36 ^ 6 ≤ c.1 := by
      have := (List.all_eq_true.mp hclocks) c (List.mem_cons_self c cs)
      exact of_decide_eq_true this
    have hcs : (cs.all fun c => decide (36 ^ 6 ≤ c.1)) = true := by
      refine List.all_eq_true.mpr fun x hx => ?_
      exact (List.all_eq_true.mp hclocks) x (List.mem_cons_of_mem c hx)
    have hts1 : prev < (genStep prev c.1 c.2).2 := genStep_ts_gt prev c.1 c.2
    have hts6 : 36 ^ 6 ≤ (genStep prev c.1 c.2).2 :=
      le_trans hc (genStep_ts_ge_clock prev c.1 c.2)
    have hfinal' : (runGenerator (genStep prev c.1 c.2).2 cs).2 < 36 ^ 8 := by
      simp only [runGenerator] at hfinal
      exact hfinal
    have hts8 : (genStep prev c.1 c.2).2 < 36 ^ 8 :=
      lt_of_le_of_lt (runGenerator_final_ge cs (genStep prev c.1 c.2).2) hfinal'
    rcases ih (genStep prev c.1 c.2).2 hcs hfinal' with ⟨hpair, hchar⟩
    have hid : (genStep prev c.1 c.2).1 = cardIdString (genStep prev c.1 c.2).2 c.2 :=
      rfl
    constructor
    · simp only [runGenerator]
      refine List.Pairwise.cons ?_ hpair
      intro s hs
      rcases hchar s hs with ⟨t, rand, hst, htgt, ht6, ht8⟩
      rw [hid, hst]
      exact cardIdString_lt hts6 htgt ht8 c.2 rand
    · simp only [runGenerator]
      intro s hs
      rcases List.mem_cons.mp hs with hhead | htail
      · exact ⟨(genStep prev c.1 c.2).2, c.2, by rw [hhead, hid], hts1, hts6, hts8⟩
      · rcases hchar s htail with ⟨t, rand, hst, htgt, ht6, ht8⟩
        exact ⟨t, rand, hst, lt_trans hts1 htgt, ht6, ht8⟩

/-- Claim C8: for every sequence of `generateCardId` calls within one
process whose wall-clock readings lie in the id scheme's collation range
`[36 ^ 6, 36 ^ 8)` ms past the 2016 epoch (26 January 2016 up to roughly
the year 4786 — the source comments that the zero pad collates "for at
least 50 years") and whose bumped timestamps stay below `36 ^ 8`, the
generated identifier strings are strictly increasing by string comparison:
each id is strictly greater than every previously generated one, including
calls in the same millisecond or under a stalled clock, which are bumped
to `prevTimeStamp + 1`. -/
theorem C8_generated_ids_ascending (cs : List (ℕ × ℕ)) (prev : ℕ)
    (hclocks : (cs.all fun c => decide (36 ^ 6 ≤ c.1)) = true)
    (hfinal : (runGenerator prev cs).2 < 36 ^ 8) :
    List.Pairwise (· < ·) (runGenerator prev cs).1 :=
  (runGenerator_sorted_aux cs prev hclocks hfinal).1

/-- Concrete run of `C8_generated_ids_ascending`: three calls starting
from the initial `prevTimeStamp = 0`, the second in the same millisecond
as the first (a stalled clock). -/
theorem C8_generated_ids_ascending_witness :
    (([(2176782336, 0), (2176782336, 123), (2176782436, 45655)] :
        List (ℕ × ℕ)).all fun c => decide (36 ^ 6 ≤ c.1)) = true ∧
    (runGenerator 0 [(2176782336, 0), (2176782336, 123), (2176782436, 45655)]).2
      < 36 ^ 8 ∧
    List.Pairwise (· < ·)
      (runGenerator 0 [(2176782336, 0), (2176782336, 123), (2176782436, 45655)]).1 :=
  ⟨by decide, by decide,
   C8_generated_ids_ascending
     [(2176782336, 0), (2176782336, 123), (2176782436, 45655)] 0
     (by decide) (by decide)⟩

/-- Claim C1 counterexample: a level-0 progress record that has never
been reviewed (`reviewed` null) is not assigned the sentinel score: the
overdueness map function requires a numeric `reviewed` field before the
level-0 check, so it emits nothing for this record at all. -/
theorem C1_overdueness_cex :
    overduenessMapFn 0 (Doc.progress ⟨"a", 0, none⟩) = none := rfl

/-- Claim C1 (amended): for the registered overdueness scoring function
with reference time `rt`: (i) a progress record whose `reviewed` is null
is not scored at all, whatever its level; (ii) a level-0 record with a
numeric `reviewed` is keyed by the sentinel `Number.MAX_VALUE`; (iii) a
record with level `L ≠ 0` and numeric reviewed time `R` is keyed by
`overdueValue`, which for `L > 0` equals the spec formula
`daysOverdue / L + (e ^ (0.00225 · daysOverdue) − 1)` with
`daysOverdue = (rt − R) / 86400000 − L`; and (iv) the sentinel strictly
dominates the score of every record with level `L ≥ 1` whose days overdue
is at most 200000 (about 547 years) — the dominance must be restricted to
such a range because the score grows without bound in `daysOverdue`. -/
theorem C1_overdueness_scoring (rt : ℚ) (id : String) (L R : ℚ) :
    (∀ lvl : ℚ, overduenessMapFn rt (Doc.progress ⟨id, lvl, none⟩) = none) ∧
    (overduenessMapFn rt (Doc.progress ⟨id, 0, some R⟩) =
      some (MAX_VALUE, ⟨"card-" ++ id, 0, some R⟩)) ∧
    (L ≠ 0 → overduenessMapFn rt (Doc.progress ⟨id, L, some R⟩) =
      some (overdueValue rt L R, ⟨"card-" ++ id, L, some R⟩)) ∧
    (0 < L → overdueValue rt L R = specOverduenessScore rt R L) ∧
    (1 ≤ L → specDaysOverdue rt R L ≤ 200000 →
      overdueValue rt L R < MAX_VALUE) := by
  refine ⟨fun lvl => rfl, by simp [overduenessMapFn], fun hL => ?_,
    fun _ => ?_, fun hL hD => ?_⟩
  · simp [overduenessMapFn, hL]
  · simp only [overdueValue, specOverduenessScore, EXP_FACTOR, MS_PER_DAY]
    norm_num
  · have hL1 : (1 : ℝ) ≤ (L : ℝ) := by exact_mod_cast hL
    have hLpos : (0 : ℝ) < (L : ℝ) := by linarith
    have key : ∀ d : ℝ, d ≤ 200000 →
        d / (L : ℝ) + (Real.exp (EXP_FACTOR * d) - 1) < MAX_VALUE := by
      intro d hd2
      have hlin : d / (L : ℝ) ≤ 200000 := by
        rcases le_or_lt d 0 with hneg | hpos
        · have hq : d / (L : ℝ) ≤ 0 :=
            div_nonpos_iff.mpr (Or.inr ⟨hneg, le_of_lt hLpos⟩)
          linarith
        · have hq := div_le_self (le_of_lt hpos) hL1
          linarith
      have hmul : EXP_FACTOR * d ≤ 450 := by
        rw [EXP_FACTOR]
        have h := mul_le_mul_of_nonneg_left hd2
          (by norm_num : (0 : ℝ) ≤ 0.00225)
        norm_num at h
        linarith
      have hexp1 : Real.exp (EXP_FACTOR * d) ≤ Real.exp 450 :=
        Real.exp_le_exp.mpr hmul
      have hexp450 : Real.exp 450 < (3 : ℝ) ^ (450 : ℕ) := by
        have h1 : Real.exp 450 = Real.exp 1 ^ (450 : ℕ) := by
          rw [← Real.exp_nat_mul]
          norm_num
        rw [h1]
        have h3 : Real.exp 1 < 3 := lt_trans Real.exp_one_lt_d9 (by norm_num)
        exact pow_lt_pow_left₀ h3 (Real.exp_nonneg 1) (by norm_num)
      have hnum : (200000 : ℝ) + (3 : ℝ) ^ (450 : ℕ) < MAX_VALUE := by
        rw [MAX_VALUE]
        norm_num
      linarith
    have hdle : ((rt : ℝ) - (R : ℝ)) / ((MS_PER_DAY : ℚ) : ℝ) - (L : ℝ)
        ≤ 200000 := by
      have hcast : ((rt : ℝ) - (R : ℝ)) / ((MS_PER_DAY : ℚ) : ℝ) - (L : ℝ)
          = ((specDaysOverdue rt R L : ℚ) : ℝ) := by
        rw [specDaysOverdue]
        push_cast
        norm_num [MS_PER_DAY]
      rw [hcast]
      exact_mod_cast hD
    simpa only [overdueValue] using
      key (((rt : ℝ) - (R : ℝ)) / ((MS_PER_DAY : ℚ) : ℝ) - (L : ℝ)) hdle

/-- Concrete run of `C1_overdueness_scoring` at reference time 0 for a
level-1 record reviewed at time 0. -/
theorem C1_overdueness_scoring_witness :
    ((1 : ℚ) ≠ 0 ∧
      overduenessMapFn 0 (Doc.progress ⟨"a", 1, some 0⟩) =
        some (overdueValue 0 1 0, ⟨"card-" ++ "a", 1, some 0⟩)) ∧
    ((0 : ℚ) < 1 ∧ overdueValue 0 1 0 = specOverduenessScore 0 0 1) ∧
    ((1 : ℚ) ≤ 1 ∧ specDaysOverdue 0 0 1 ≤ 200000 ∧
      overdueValue 0 1 0 < MAX_VALUE) :=
  ⟨⟨by norm_num,
    (C1_overdueness_scoring 0 "a" 1 0).2.2.1 (by norm_num)⟩,
   ⟨by norm_num,
    (C1_overdueness_scoring 0 "a" 1 0).2.2.2.1 (by norm_num)⟩,
   ⟨by norm_num, by norm_num [specDaysOverdue],
    (C1_overdueness_scoring 0 "a" 1 0).2.2.2.2 (by norm_num)
      (by norm_num [specDaysOverdue])⟩⟩

/-- Claim C10: the overdue listing with `skipFailedCards` enabled never
returns a level-0 entity: level-0 records with a numeric `reviewed` are
keyed by the sentinel `Number.MAX_VALUE`, which lies strictly above the
query's start key `Number.MAX_SAFE_INTEGER`, and level-0 records with a
null `reviewed` are not emitted into the overdueness view at all. -/
theorem C10_overdue_skip_failed_no_level0 (rt : ℚ) (docs : List Doc)
    (e : EmittedCard) (he : e ∈ overdueQuerySkipFailed rt docs) :
    e.level ≠ 0 := by
  have hMSI : ((MAX_SAFE_INTEGER : ℚ) : ℝ) < MAX_VALUE := by
    rw [MAX_SAFE_INTEGER, MAX_VALUE]
    norm_num
  rw [overdueQuerySkipFailed] at he
  rcases List.mem_map.mp he with ⟨row, hrowmem, hrow⟩
  rcases List.mem_filter.mp hrowmem with ⟨hrowfm, hrange⟩
  have hrange' : 0 ≤ row.1 ∧ row.1 ≤ ((MAX_SAFE_INTEGER : ℚ) : ℝ) :=
    of_decide_eq_true hrange
  rcases List.mem_filterMap.mp hrowfm with ⟨d, _, hfn⟩
  cases d with
  | progress p =>
    cases hrev : p.reviewed with
    | none => simp [overduenessMapFn, hrev] at hfn
    | some R =>
      by_cases hlvl : p.level = 0
      · simp only [overduenessMapFn, hrev] at hfn
        rw [if_pos hlvl] at hfn
        have hkey : row.1 = MAX_VALUE := by
          cases hfn
          rfl
        rw [hkey] at hrange'
        exact absurd (lt_of_le_of_lt hrange'.2 hMSI) (lt_irrefl _)
      · simp only [overduenessMapFn, hrev] at hfn
        rw [if_neg hlvl] at hfn
        have hval : row.2 = ⟨"card-" ++ p.id, p.level, some R⟩ := by
          cases hfn
          rfl
        rw [← hrow, hval]
        exact hlvl
  | card id => simp [overduenessMapFn] at hfn
  | review id => simp [overduenessMapFn] at hfn
  | other id => simp [overduenessMapFn] at hfn

/-- Concrete run of `C10_overdue_skip_failed_no_level0`: a level-1 record
one day overdue is listed (its score lies in the query range) and indeed
has nonzero level. -/
theorem C10_overdue_skip_failed_no_level0_witness :
    (⟨"card-" ++ "a", 1, some 0⟩ : EmittedCard) ∈
      overdueQuerySkipFailed (2 * 86400000) [Doc.progress ⟨"a", 1, some 0⟩] ∧
    (⟨"card-" ++ "a", 1, some 0⟩ : EmittedCard).level ≠ 0 := by
  have hval : overdueValue (2 * 86400000) 1 0 =
      1 + (Real.exp (EXP_FACTOR * 1) - 1) := by
    simp only [overdueValue, MS_PER_DAY]
    norm_num
  have hexp0 : (1 : ℝ) ≤ Real.exp (EXP_FACTOR * 1) := by
    apply Real.one_le_exp
    rw [EXP_FACTOR]
    norm_num
  have hexp3 : Real.exp (EXP_FACTOR * 1) < 3 := by
    have h1 : Real.exp (EXP_FACTOR * 1) ≤ Real.exp 1 := by
      apply Real.exp_le_exp.mpr
      rw [EXP_FACTOR]
      norm_num
    exact lt_of_le_of_lt h1 (lt_trans Real.exp_one_lt_d9 (by norm_num))
  have h0 : (0 : ℝ) ≤ overdueValue (2 * 86400000) 1 0 := by
    rw [hval]
    linarith
  have h1 : overdueValue (2 * 86400000) 1 0 ≤ ((MAX_SAFE_INTEGER : ℚ) : ℝ) := by
    rw [hval, MAX_SAFE_INTEGER]
    push_cast
    linarith
  have hrowfm : ([Doc.progress ⟨"a", 1, some 0⟩].filterMap
      (overduenessMapFn (2 * 86400000))) =
      [(overdueValue (2 * 86400000) 1 0, ⟨"card-" ++ "a", 1, some 0⟩)] := by
    simp [overduenessMapFn]
  have hp : (decide (0 ≤ overdueValue (2 * 86400000) 1 0 ∧
      overdueValue (2 * 86400000) 1 0 ≤ ((MAX_SAFE_INTEGER : ℚ) : ℝ))) = true :=
    decide_eq_true ⟨h0, h1⟩
  have hmem : (⟨"card-" ++ "a", 1, some 0⟩ : EmittedCard) ∈
      overdueQuerySkipFailed (2 * 86400000) [Doc.progress ⟨"a", 1, some 0⟩] := by
    rw [overdueQuerySkipFailed, hrowfm]
    simp [List.filter, hp]
  exact ⟨hmem,
    C10_overdue_skip_failed_no_level0 (2 * 86400000)
      [Doc.progress ⟨"a", 1, some 0⟩] ⟨"card-" ++ "a", 1, some 0⟩ hmem⟩

end Toku
